import Mathlib

/-!
# Verification of the SwingLove stock-dashboard core routines

This file gives a shallow embedding, in Lean 4, of the pure control flow of
the SwingLove repository: the AI-provider fallback chain and response parser
(`ai_analysis.py`), the Gemini response parser (`gemini_analysis.py`), the
symbol normalisation and ratio scaling (`stock_data.py`), and the symbol
validator (`utils.py`).  External effects (HTTP calls to the AI providers,
the market-data library) are abstracted as explicit environment values that
record each call's outcome; everything else is translated line by line from
the Python source.

Strings are modelled as Lean `String`s over their underlying `List Char`,
with Python's `str.strip`, `str.upper`, `str.lower` and the ASCII fragments
of `str.isalpha` / `\s` re-implemented explicitly.  Numeric provider data is
modelled by `ℚ`; Python truthiness of a number is `≠ 0`.
-/

/-! ## Character-level utilities (ASCII fragments of the Python built-ins) -/

/-- Codepoint test for the whitespace characters stripped by Python's
`str.strip()` and matched by the regex class `\s` (ASCII fragment):
space, tab, newline, carriage return, vertical tab, form feed. -/
def isSpaceA (c : Char) : Bool :=
  c.toNat = 32 || c.toNat = 9 || c.toNat = 10 || c.toNat = 13 || c.toNat = 11 || c.toNat = 12

/-- Uppercase ASCII letter test (the `A`-`Z` range). -/
def isUpperA (c : Char) : Bool := 65 ≤ c.toNat && c.toNat ≤ 90

/-- Lowercase ASCII letter test (the `a`-`z` range). -/
def isLowerA (c : Char) : Bool := 97 ≤ c.toNat && c.toNat ≤ 122

/-- ASCII letter test: the fragment of Python's `str.isalpha` / the regex
class `[A-Za-z]` relevant to stock symbols. -/
def isAlphaA (c : Char) : Bool := isUpperA c || isLowerA c

/-- Per-character uppercasing, as done by Python's `str.upper` on ASCII. -/
def upChar (c : Char) : Char :=
  if 97 ≤ c.toNat ∧ c.toNat ≤ 122 then Char.ofNat (c.toNat - 32) else c

/-- Per-character lowercasing, as done by Python's `str.lower` on ASCII. -/
def lowChar (c : Char) : Char :=
  if 65 ≤ c.toNat ∧ c.toNat ≤ 90 then Char.ofNat (c.toNat + 32) else c

/-- Python's `str.strip()`: drop leading and trailing whitespace. -/
def stripL (l : List Char) : List Char :=
  ((l.dropWhile isSpaceA).reverse.dropWhile isSpaceA).reverse

/-- `beginsWithL hay needle`: does `hay` start with `needle`?
(Python's `str.startswith`.) -/
def beginsWithL : List Char → List Char → Bool
  | _, [] => true
  | [], _ :: _ => false
  | c :: cs, d :: ds => c = d && beginsWithL cs ds

/-- `hasSub hay needle`: does `needle` occur as a contiguous substring of
`hay`?  (Python's `in` operator on strings.) -/
def hasSub : List Char → List Char → Bool
  | [], needle => needle.isEmpty
  | c :: cs, needle => beginsWithL (c :: cs) needle || hasSub cs needle

/-- `endsWithL hay needle`: does `hay` end with `needle`?
(Python's `str.endswith`.) -/
def endsWithL (hay needle : List Char) : Bool :=
  beginsWithL hay.reverse needle.reverse

/-- Python's `str.split('\n')`. -/
def splitLines : List Char → List (List Char)
  | [] => [[]]
  | c :: cs =>
    if c = '\n' then [] :: splitLines cs
    else
      match splitLines cs with
      | [] => [[c]]
      | l :: ls => (c :: l) :: ls

/-- Python's `str.split('. ')`: split on the two-character separator
dot-space, leftmost non-overlapping occurrences. -/
def splitDS : List Char → List (List Char)
  | [] => [[]]
  | [c] => [[c]]
  | c :: d :: rest =>
    if c = '.' ∧ d = ' ' then [] :: splitDS rest
    else
      match splitDS (d :: rest) with
      | [] => [[c]]
      | l :: ls => (c :: l) :: ls

/-! ## `ai_analysis.py`: data model -/

/-- The result dictionary built by `AIAnalyzer._parse_analysis` and
`AIAnalyzer._generate_basic_analysis`: an `insights` list and an
`investment_summary` string. -/
structure AnalysisResult where
  insights : List String
  investmentSummary : String
  deriving DecidableEq, Repr

/-- The `current_section` marker of `AIAnalyzer._parse_analysis`. -/
inductive PSec where
  | insights
  | summary
  deriving DecidableEq, Repr

/-- Loop state of `AIAnalyzer._parse_analysis`: the current section, the
accumulated insights, and the accumulated summary text. -/
structure PState where
  sec : Option PSec
  ins : List String
  sum : List Char
  deriving DecidableEq, Repr

/-- One iteration of the line loop of `AIAnalyzer._parse_analysis`
(`ai_analysis.py` lines 170-181): strip the line, then
(1) if the uppercased line contains `INSIGHTS:`, switch to the insights
    section;
(2) otherwise if it contains `INVESTMENT_SUMMARY:`, switch to the summary
    section;
(3) otherwise if the line starts with a bullet (`•`, `-` or `*`), append
    `line[1:].strip()` to the insights when inside the insights section;
(4) otherwise a non-empty line inside the summary section is appended to
    the summary followed by a space. -/
def parseLine (st : PState) (raw : List Char) : PState :=
  let l := stripL raw
  if hasSub (l.map upChar) ("INSIGHTS:".data) then { st with sec := some PSec.insights }
  else if hasSub (l.map upChar) ("INVESTMENT_SUMMARY:".data) then { st with sec := some PSec.summary }
  else if beginsWithL l ['•'] || beginsWithL l ['-'] || beginsWithL l ['*'] then
    (if st.sec = some PSec.insights then { st with ins := st.ins ++ [String.mk (stripL l.tail)] }
     else st)
  else if st.sec = some PSec.summary ∧ l ≠ [] then { st with sum := st.sum ++ l ++ [' '] }
  else st

/-- The accumulation phase of `AIAnalyzer._parse_analysis`: run the line
loop over `analysis_text.split('\n')` starting from the empty state. -/
def parseAccum (text : String) : PState :=
  (splitLines text.data).foldl parseLine { sec := none, ins := [], sum := [] }

/-- Placeholder insight used by `_parse_analysis` when no insight was
collected. -/
def insightsPlaceholder : String :=
  "Analysis pending - please check back for detailed insights"

/-- Placeholder summary used by `_parse_analysis` when no summary text was
collected. -/
def summaryPlaceholder : String :=
  "Investment analysis is being processed. Please try again for detailed recommendations."

/-- `AIAnalyzer._parse_analysis` (`ai_analysis.py` lines 161-196): run the
line loop, strip the accumulated summary, substitute the placeholders when
a field came out empty, and truncate the insights to at most 5 entries. -/
def parseAnalysis (text : String) : AnalysisResult :=
  let st := parseAccum text
  let sum0 := stripL st.sum
  let ins := if st.ins = [] then [insightsPlaceholder] else st.ins
  let sum := if sum0 = [] then summaryPlaceholder.data else sum0
  { insights := ins.take 5, investmentSummary := String.mk sum }

/-- The classification a line of `_parse_analysis` input receives. -/
inductive LineClass where
  | headerInsights
  | headerSummary
  | bullet
  | plain
  deriving DecidableEq, Repr

/-- The classification rule actually implemented by `_parse_analysis`:
section headers are recognised by case-insensitive substring containment
(checked before the bullet test), bullets by their first character, and
everything else is plain text. -/
def classifyLine (l : List Char) : LineClass :=
  if hasSub (l.map upChar) ("INSIGHTS:".data) then LineClass.headerInsights
  else if hasSub (l.map upChar) ("INVESTMENT_SUMMARY:".data) then LineClass.headerSummary
  else if beginsWithL l ['•'] || beginsWithL l ['-'] || beginsWithL l ['*'] then LineClass.bullet
  else LineClass.plain

/-- Action taken by the `_parse_analysis` loop on a stripped line, as a
function of the line's class and the current state. -/
def applyClass (st : PState) (l : List Char) : PState :=
  match classifyLine l with
  | LineClass.headerInsights => { st with sec := some PSec.insights }
  | LineClass.headerSummary => { st with sec := some PSec.summary }
  | LineClass.bullet =>
    if st.sec = some PSec.insights then { st with ins := st.ins ++ [String.mk (stripL l.tail)] }
    else st
  | LineClass.plain =>
    if st.sec = some PSec.summary ∧ l ≠ [] then { st with sum := st.sum ++ l ++ [' '] }
    else st

/-- `_parse_analysis` restructured so that each line is first classified
into exactly one `LineClass` and the loop action is determined by that
class alone. -/
def parseAnalysisClassified (text : String) : AnalysisResult :=
  let st := (splitLines text.data).foldl (fun st raw => applyClass st (stripL raw))
    { sec := none, ins := [], sum := [] }
  let sum0 := stripL st.sum
  let ins := if st.ins = [] then [insightsPlaceholder] else st.ins
  let sum := if sum0 = [] then summaryPlaceholder.data else sum0
  { insights := ins.take 5, investmentSummary := String.mk sum }

/-- Modelled from the spec claim's words, for comparison with the code:
a line loop in which a section header is recognised by how the stripped
line *begins* (prefix matching, case-insensitive) rather than by substring
containment.  Bullet and prose handling are unchanged. -/
def parseLineSpec (st : PState) (raw : List Char) : PState :=
  let l := stripL raw
  if beginsWithL (l.map upChar) ("INSIGHTS:".data) then { st with sec := some PSec.insights }
  else if beginsWithL (l.map upChar) ("INVESTMENT_SUMMARY:".data) then { st with sec := some PSec.summary }
  else if beginsWithL l ['•'] || beginsWithL l ['-'] || beginsWithL l ['*'] then
    (if st.sec = some PSec.insights then { st with ins := st.ins ++ [String.mk (stripL l.tail)] }
     else st)
  else if st.sec = some PSec.summary ∧ l ≠ [] then { st with sum := st.sum ++ l ++ [' '] }
  else st

/-- Modelled from the spec claim's words: `_parse_analysis` with the
prefix-based header classification of `parseLineSpec`. -/
def parseAnalysisSpec (text : String) : AnalysisResult :=
  let st := (splitLines text.data).foldl parseLineSpec { sec := none, ins := [], sum := [] }
  let sum0 := stripL st.sum
  let ins := if st.ins = [] then [insightsPlaceholder] else st.ins
  let sum := if sum0 = [] then summaryPlaceholder.data else sum0
  { insights := ins.take 5, investmentSummary := String.mk sum }

/-! ## `ai_analysis.py`: basic analysis and the provider fallback chain -/

/-- The fields of the `stock_data` dictionary read by
`AIAnalyzer._generate_basic_analysis`.  A `none` models an absent key (or a
stored `None`); Python truthiness of a present number is `≠ 0`. -/
structure StockData where
  peRatio : Option ℚ
  roe : Option ℚ
  debtToEquity : Option ℚ
  dividendYield : Option ℚ
  currentRatio : Option ℚ
  deriving DecidableEq, Repr

/-- The fixed summary produced by `_generate_basic_analysis`. -/
def basicSummary : String :=
  "This stock requires detailed fundamental analysis. Consider consulting with a financial advisor for personalized investment advice. Past performance does not guarantee future results."

/-- The three default insights of `_generate_basic_analysis`, used when no
data-driven insight applies. -/
def defaultInsights : List String :=
  ["Financial analysis requires detailed review of recent performance",
   "Consider industry trends and market conditions",
   "Evaluate long-term growth prospects and competitive position"]

/-- `AIAnalyzer._generate_basic_analysis` (`ai_analysis.py` lines 202-240):
deterministic canned insights from the available fields, the default
insights when none apply, capped at 5 entries, with a fixed summary. -/
def generateBasicAnalysis (sd : StockData) : AnalysisResult :=
  let i1 : List String :=
    match sd.peRatio with
    | some v =>
      if v ≠ 0 then
        (if v < 15 then ["Stock appears to be undervalued based on P/E ratio"]
         else if v > 25 then ["Stock appears to be overvalued based on P/E ratio"]
         else ["Stock is reasonably valued based on P/E ratio"])
      else []
    | none => []
  let i2 : List String :=
    match sd.roe with
    | some v => if v ≠ 0 ∧ v > 15 then ["Strong Return on Equity indicates efficient management"] else []
    | none => []
  let i3 : List String :=
    match sd.debtToEquity with
    | some v =>
      if v ≠ 0 ∧ v < 1/2 then ["Low debt-to-equity ratio suggests conservative financial management"]
      else []
    | none => []
  let i4 : List String :=
    match sd.dividendYield with
    | some v => if v ≠ 0 ∧ v > 2 then ["Decent dividend yield provides income potential"] else []
    | none => []
  let i5 : List String :=
    match sd.currentRatio with
    | some v => if v ≠ 0 ∧ v > 3/2 then ["Strong current ratio indicates good liquidity position"] else []
    | none => []
  let gathered := i1 ++ i2 ++ i3 ++ i4 ++ i5
  let ins := if gathered = [] then defaultInsights else gathered
  { insights := ins.take 5, investmentSummary := basicSummary }

/-- Outcome of one HTTP call to an AI provider, as observed by
`analyze_stock`: the call raised, or it returned a (possibly empty)
response text. -/
inductive ProvResult where
  | fail
  | ok (text : String)
  deriving DecidableEq, Repr

/-- The external environment of one `AIAnalyzer.analyze_stock` call: the
two configured API keys and the outcome each provider call would have. -/
structure AIEnv where
  togetherKey : String
  groqKey : String
  together : ProvResult
  groq : ProvResult
  deriving DecidableEq, Repr

/-- The two AI providers of the fallback chain. -/
inductive Provider where
  | together
  | groq
  deriving DecidableEq, Repr

/-- `AIAnalyzer.analyze_stock` (`ai_analysis.py` lines 16-45), instrumented
with the list of providers actually invoked: try Together AI when its key
is set, returning the parsed response on non-empty text; otherwise fall
back to Groq when its key is set; otherwise return the basic analysis. -/
def analyzeStockTraced (env : AIEnv) (sd : StockData) : AnalysisResult × List Provider :=
  let afterTogether : Option AnalysisResult × List Provider :=
    if env.togetherKey ≠ "" then
      match env.together with
      | ProvResult.ok t =>
        if t ≠ "" then (some (parseAnalysis t), [Provider.together])
        else (none, [Provider.together])
      | ProvResult.fail => (none, [Provider.together])
    else (none, [])
  match afterTogether with
  | (some r, tr) => (r, tr)
  | (none, tr) =>
    if env.groqKey ≠ "" then
      match env.groq with
      | ProvResult.ok t =>
        if t ≠ "" then (parseAnalysis t, tr ++ [Provider.groq])
        else (generateBasicAnalysis sd, tr ++ [Provider.groq])
      | ProvResult.fail => (generateBasicAnalysis sd, tr ++ [Provider.groq])
    else (generateBasicAnalysis sd, tr)

/-- `AIAnalyzer.analyze_stock`: the result returned to the caller. -/
def analyzeStock (env : AIEnv) (sd : StockData) : AnalysisResult :=
  (analyzeStockTraced env sd).1

/-! ## `stock_data.py`: symbol normalisation and ratio scaling -/

/-- The hard-coded symbol table of `StockDataFetcher.get_indian_symbol`
(`stock_data.py` lines 25-60). -/
def indianSymbols : List (String × String) :=
  [("TCS", "TCS.NS"), ("INFY", "INFY.NS"), ("INFOSYS", "INFY.NS"),
   ("RELIANCE", "RELIANCE.NS"), ("HDFCBANK", "HDFCBANK.NS"), ("HDFC", "HDFCBANK.NS"),
   ("ITC", "ITC.NS"), ("SBIN", "SBIN.NS"), ("SBI", "SBIN.NS"),
   ("BHARTIARTL", "BHARTIARTL.NS"), ("AIRTEL", "BHARTIARTL.NS"),
   ("ICICIBANK", "ICICIBANK.NS"), ("ICICI", "ICICIBANK.NS"),
   ("LT", "LT.NS"), ("LARSEN", "LT.NS"), ("HCLTECH", "HCLTECH.NS"), ("HCL", "HCLTECH.NS"),
   ("WIPRO", "WIPRO.NS"), ("ONGC", "ONGC.NS"), ("NTPC", "NTPC.NS"),
   ("POWERGRID", "POWERGRID.NS"), ("COALINDIA", "COALINDIA.NS"), ("MARUTI", "MARUTI.NS"),
   ("BAJFINANCE", "BAJFINANCE.NS"), ("BAJAJ", "BAJFINANCE.NS"),
   ("SUNPHARMA", "SUNPHARMA.NS"), ("DRREDDY", "DRREDDY.NS"),
   ("NESTLEIND", "NESTLEIND.NS"), ("NESTLE", "NESTLEIND.NS"),
   ("HINDUNILVR", "HINDUNILVR.NS"), ("HUL", "HINDUNILVR.NS"),
   ("ULTRACEMCO", "ULTRACEMCO.NS"), ("ADANIPORTS", "ADANIPORTS.NS"),
   ("ADANI", "ADANIPORTS.NS")]

/-- First-match association-list lookup (Python `dict` membership plus
indexing, for the string-keyed table above). -/
def lookupSym : List (String × String) → String → Option String
  | [], _ => none
  | (k, v) :: rest, key => if key = k then some v else lookupSym rest key

/-- `StockDataFetcher.get_indian_symbol` (`stock_data.py` lines 16-66):
uppercase and strip the symbol; return it unchanged when it already ends in
`.NS` or `.BO`; otherwise look it up in the table; otherwise append `.NS`. -/
def getIndianSymbol (s : String) : String :=
  let sym := stripL (s.data.map upChar)
  if endsWithL sym (".NS".data) || endsWithL sym (".BO".data) then String.mk sym
  else
    match lookupSym indianSymbols (String.mk sym) with
    | some v => v
    | none => String.mk (sym ++ ".NS".data)

/-- The fields of the `yfinance` `info` dictionary read by the ratio and
shareholding helpers of `StockDataFetcher`.  A `none` models an absent
key; Python truthiness of a present number is `≠ 0`. -/
structure YfInfo where
  returnOnEquity : Option ℚ
  returnOnAssets : Option ℚ
  heldPercentInstitutions : Option ℚ
  heldPercentInsiders : Option ℚ
  deriving DecidableEq, Repr

/-- `StockDataFetcher._calculate_roe` (`stock_data.py` lines 274-279):
`info.get('returnOnEquity', None) * 100 if info.get('returnOnEquity') else
None`. -/
def calculateRoe (info : YfInfo) : Option ℚ :=
  match info.returnOnEquity with
  | some v => if v ≠ 0 then some (v * 100) else none
  | none => none

/-- `StockDataFetcher._calculate_roce` (`stock_data.py` lines 281-286):
`info.get('returnOnAssets', None) * 100 if info.get('returnOnAssets') else
None`. -/
def calculateRoce (info : YfInfo) : Option ℚ :=
  match info.returnOnAssets with
  | some v => if v ≠ 0 then some (v * 100) else none
  | none => none

/-- The `roe` and `roce` entries of the dictionary compiled by
`StockDataFetcher.get_comprehensive_data` (`stock_data.py` lines 139-140). -/
structure CompiledRatios where
  roe : Option ℚ
  roce : Option ℚ
  deriving DecidableEq, Repr

/-- The fragment of `get_comprehensive_data` that fills the `roe` and
`roce` fields of the compiled stock data from the provider `info`. -/
def compileRatios (info : YfInfo) : CompiledRatios :=
  { roe := calculateRoe info, roce := calculateRoce info }

/-- `StockDataFetcher._get_retail_holding` (`stock_data.py` lines 320-328):
`max(0, 100 - heldPercentInstitutions*100 - heldPercentInsiders*100)`, the
holdings defaulting to `0` when absent. -/
def getRetailHolding (info : YfInfo) : Option ℚ :=
  some (max 0 (100 - info.heldPercentInstitutions.getD 0 * 100
                   - info.heldPercentInsiders.getD 0 * 100))

/-! ## `gemini_analysis.py`: the Gemini response parser -/

/-- The result dictionary of `GeminiStockAnalyzer.generate_stock_insights`. -/
structure GResult where
  insights : List String
  recommendation : String
  risks : List String
  analysisText : String
  deriving DecidableEq, Repr

/-- The `current_section` marker of
`GeminiStockAnalyzer._parse_gemini_response`. -/
inductive GSec where
  | insights
  | recommendation
  | risks
  deriving DecidableEq, Repr

/-- Loop state of `_parse_gemini_response`. -/
structure GState where
  sec : Option GSec
  ins : List String
  rcmd : String
  rks : List String
  deriving DecidableEq, Repr

/-- The character set of Python's `line.lstrip('- •*')`. -/
def gBulletChar (c : Char) : Bool :=
  c = '-' || c = ' ' || c = '•' || c = '*'

/-- One iteration of the line loop of `_parse_gemini_response`
(`gemini_analysis.py` lines 96-122): skip blank lines; switch section on
case-insensitive substring containment of the section keywords; collect
bullet lines into insights (at most 5) or risks (at most 3); inside the
recommendation section scan prose lines for buy / sell / hold. -/
def gParseLine (st : GState) (raw : List Char) : GState :=
  let l := stripL raw
  if l = [] then st
  else if hasSub (l.map lowChar) ("insight".data) || hasSub (l.map lowChar) ("key point".data) then
    { st with sec := some GSec.insights }
  else if hasSub (l.map lowChar) ("recommendation".data) || hasSub (l.map lowChar) ("invest".data) then
    { st with sec := some GSec.recommendation }
  else if hasSub (l.map lowChar) ("risk".data) || hasSub (l.map lowChar) ("concern".data) then
    { st with sec := some GSec.risks }
  else if beginsWithL l ['-'] || beginsWithL l ['•'] || beginsWithL l ['*'] then
    let clean := String.mk (stripL (l.dropWhile gBulletChar))
    if st.sec = some GSec.insights ∧ st.ins.length < 5 then { st with ins := st.ins ++ [clean] }
    else if st.sec = some GSec.risks ∧ st.rks.length < 3 then { st with rks := st.rks ++ [clean] }
    else st
  else if st.sec = some GSec.recommendation then
    (if hasSub (l.map lowChar) ("buy".data) then { st with rcmd := "Buy" }
     else if hasSub (l.map lowChar) ("sell".data) then { st with rcmd := "Sell" }
     else if hasSub (l.map lowChar) ("hold".data) then { st with rcmd := "Hold" }
     else st)
  else st

/-- The sentence-salvage pass of `_parse_gemini_response` (lines 125-132):
walk `response_text.split('. ')`, keep sentences of length strictly
between 50 and 200 (stripped), and stop as soon as 5 are collected. -/
def collectSentences : List (List Char) → List String → List String
  | [], acc => acc
  | s :: rest, acc =>
    if 50 < s.length ∧ s.length < 200 then
      let acc2 := acc ++ [String.mk (stripL s)]
      if 5 ≤ acc2.length then acc2 else collectSentences rest acc2
    else collectSentences rest acc

/-- `GeminiStockAnalyzer._get_fallback_analysis`
(`gemini_analysis.py` lines 145-156). -/
def geminiFallback : GResult :=
  { insights := ["Financial data analysis completed",
                 "Stock performance metrics calculated",
                 "Market position evaluated"]
    recommendation := "Hold"
    risks := ["Market volatility risk"]
    analysisText := "AI analysis temporarily unavailable. Please check the financial metrics above for detailed information." }

/-- `GeminiStockAnalyzer._parse_gemini_response`
(`gemini_analysis.py` lines 86-139): run the line loop over the stripped
response split into lines; when fewer than 3 insights were collected,
replace them by the sentence-salvage pass; substitute the canned defaults
for empty lists and truncate. -/
def parseGeminiResponse (text : String) : GResult :=
  let st := (splitLines (stripL text.data)).foldl gParseLine
    { sec := none, ins := [], rcmd := "Hold", rks := [] }
  let ins := if st.ins.length < 3 then collectSentences (splitDS text.data) [] else st.ins
  { insights := if ins = [] then ["Analysis completed successfully"] else ins.take 5
    recommendation := st.rcmd
    risks := if st.rks = [] then ["Market volatility risk"] else st.rks.take 3
    analysisText := text }

/-- Outcome of a `generate_stock_insights` call's interaction with the
Gemini API: the call (or the preceding prompt construction) raised, or it
returned a (possibly empty) response text. -/
inductive GemOutcome where
  | fail
  | ok (text : String)
  deriving DecidableEq, Repr

/-- `GeminiStockAnalyzer.generate_stock_insights`
(`gemini_analysis.py` lines 14-47): parse a non-empty response text,
otherwise (empty text, or any exception) return the fallback analysis. -/
def generateStockInsights (outcome : GemOutcome) : GResult :=
  match outcome with
  | GemOutcome.fail => geminiFallback
  | GemOutcome.ok t => if t ≠ "" then parseGeminiResponse t else geminiFallback

/-! ## `utils.py`: the symbol validator

`validate_stock_symbol` tries six regular expressions with `re.search` and
`re.IGNORECASE`.  The patterns combine case-insensitive literals, `\s+`,
`\s*` and a greedy `([A-Za-z]+)` group; since consecutive pieces draw from
disjoint character classes, greedy maximal-munch matching at each start
position, taking positions left to right, is exactly `re.search`'s
leftmost-match semantics.  Each `tryPatN` matches pattern `N` anchored at
the start of its argument and returns the captured group; `searchFrom`
scans the start positions. -/

/-- Match a literal case-insensitively at the start of the text, returning
the rest of the text. -/
def matchCI : List Char → List Char → Option (List Char)
  | t, [] => some t
  | [], _ :: _ => none
  | c :: cs, d :: ds => if upChar c = upChar d then matchCI cs ds else none

/-- Pattern `analyze\s+stock:\s*([A-Za-z]+)`, anchored here. -/
def tryPat1 (s : List Char) : Option (List Char) :=
  match matchCI s ("analyze".data) with
  | none => none
  | some r1 =>
    if (r1.takeWhile isSpaceA).isEmpty then none
    else
      match matchCI (r1.dropWhile isSpaceA) ("stock:".data) with
      | none => none
      | some r2 =>
        let g := (r2.dropWhile isSpaceA).takeWhile isAlphaA
        if g.isEmpty then none else some g

/-- Pattern `analyze\s+([A-Za-z]+)`, anchored here. -/
def tryPat2 (s : List Char) : Option (List Char) :=
  match matchCI s ("analyze".data) with
  | none => none
  | some r1 =>
    if (r1.takeWhile isSpaceA).isEmpty then none
    else
      let g := (r1.dropWhile isSpaceA).takeWhile isAlphaA
      if g.isEmpty then none else some g

/-- Pattern `stock:\s*([A-Za-z]+)`, anchored here. -/
def tryPat3 (s : List Char) : Option (List Char) :=
  match matchCI s ("stock:".data) with
  | none => none
  | some r1 =>
    let g := (r1.dropWhile isSpaceA).takeWhile isAlphaA
    if g.isEmpty then none else some g

/-- Pattern `^([A-Za-z]+)$`: the whole input is one alphabetic run. -/
def tryPat4Full (l : List Char) : Option (List Char) :=
  if ¬ l.isEmpty ∧ l.all isAlphaA then some l else none

/-- Pattern `([A-Za-z]+)\s+stock`, anchored here. -/
def tryPat5 (s : List Char) : Option (List Char) :=
  let g := s.takeWhile isAlphaA
  if g.isEmpty then none
  else
    let r1 := s.dropWhile isAlphaA
    if (r1.takeWhile isSpaceA).isEmpty then none
    else
      match matchCI (r1.dropWhile isSpaceA) ("stock".data) with
      | none => none
      | some _ => some g

/-- Pattern `([A-Za-z]+)\s+analysis`, anchored here. -/
def tryPat6 (s : List Char) : Option (List Char) :=
  let g := s.takeWhile isAlphaA
  if g.isEmpty then none
  else
    let r1 := s.dropWhile isAlphaA
    if (r1.takeWhile isSpaceA).isEmpty then none
    else
      match matchCI (r1.dropWhile isSpaceA) ("analysis".data) with
      | none => none
      | some _ => some g

/-- `re.search`: try the anchored matcher at each start position, left to
right. -/
def searchFrom (t : List Char → Option (List Char)) : List Char → Option (List Char)
  | [] => t []
  | c :: cs =>
    match t (c :: cs) with
    | some g => some g
    | none => searchFrom t cs

/-- The per-match validation of `validate_stock_symbol` (`utils.py` lines
26-29): uppercase and strip the captured group, and accept it when it has
length at least 2 and is purely alphabetic. -/
def symCheck (g : List Char) : Option String :=
  let sym := stripL (g.map upChar)
  if 2 ≤ sym.length ∧ ¬ sym.isEmpty ∧ sym.all isAlphaA then some (String.mk sym) else none

/-- The six pattern searches of `validate_stock_symbol`, in source order. -/
def patResults (cleaned : List Char) : List (Option (List Char)) :=
  [searchFrom tryPat1 cleaned, searchFrom tryPat2 cleaned, searchFrom tryPat3 cleaned,
   tryPat4Full cleaned, searchFrom tryPat5 cleaned, searchFrom tryPat6 cleaned]

/-- The pattern loop of `validate_stock_symbol`: return the first match
that passes `symCheck`; a match failing the check falls through to the
next pattern. -/
def firstValid : List (Option (List Char)) → Option String
  | [] => none
  | none :: rest => firstValid rest
  | some g :: rest =>
    match symCheck g with
    | some s => some s
    | none => firstValid rest

/-- `validate_stock_symbol` (`utils.py` lines 5-35): empty input is
rejected; otherwise strip the input, run the six pattern searches, and
fall back to accepting the whole input with spaces removed when it is
alphabetic and at most 10 characters long. -/
def validateStockSymbol (input : String) : Option String :=
  if input = "" then none
  else
    let cleaned := stripL input.data
    match firstValid (patResults cleaned) with
    | some s => some s
    | none =>
      let ns := cleaned.filter (fun c => c ≠ ' ')
      if ¬ ns.isEmpty ∧ ns.all isAlphaA ∧ ns.length ≤ 10 then some (String.mk (ns.map upChar))
      else none

/-! ## Helper lemmas: characters -/

theorem toNat_ofNat_valid (n : Nat) (h : n.isValidChar) : (Char.ofNat n).toNat = n := by
  rw [Char.ofNat, dif_pos h]
  rfl

theorem upChar_toNat_of_lower (c : Char) (h : 97 ≤ c.toNat ∧ c.toNat ≤ 122) :
    (upChar c).toNat = c.toNat - 32 := by
  rw [upChar, if_pos h]
  exact toNat_ofNat_valid _ (Or.inl (by omega))

theorem upChar_of_not_lower (c : Char) (h : ¬ (97 ≤ c.toNat ∧ c.toNat ≤ 122)) :
    upChar c = c := by
  rw [upChar, if_neg h]

theorem isSpaceA_iff (c : Char) : isSpaceA c = true ↔
    (c.toNat = 32 ∨ c.toNat = 9 ∨ c.toNat = 10 ∨ c.toNat = 13 ∨ c.toNat = 11 ∨ c.toNat = 12) := by
  simp [isSpaceA, Bool.or_eq_true, or_assoc]

theorem isUpperA_iff (c : Char) : isUpperA c = true ↔ (65 ≤ c.toNat ∧ c.toNat ≤ 90) := by
  simp [isUpperA, Bool.and_eq_true]

theorem isLowerA_iff (c : Char) : isLowerA c = true ↔ (97 ≤ c.toNat ∧ c.toNat ≤ 122) := by
  simp [isLowerA, Bool.and_eq_true]

theorem isAlphaA_iff (c : Char) : isAlphaA c = true ↔
    ((65 ≤ c.toNat ∧ c.toNat ≤ 90) ∨ (97 ≤ c.toNat ∧ c.toNat ≤ 122)) := by
  simp [isAlphaA, Bool.or_eq_true, isUpperA_iff, isLowerA_iff]

theorem isSpaceA_upChar (c : Char) : isSpaceA (upChar c) = isSpaceA c := by
  by_cases h : 97 ≤ c.toNat ∧ c.toNat ≤ 122
  · have ht := upChar_toNat_of_lower c h
    have h1 : isSpaceA (upChar c) = false := by
      rw [← Bool.not_eq_true, isSpaceA_iff]; omega
    have h2 : isSpaceA c = false := by
      rw [← Bool.not_eq_true, isSpaceA_iff]; omega
    rw [h1, h2]
  · rw [upChar_of_not_lower c h]

theorem isUpperA_upChar_arg (c : Char) (h : isAlphaA c = true) :
    isUpperA (upChar c) = true := by
  rcases (isAlphaA_iff c).mp h with hu | hl
  · rw [upChar_of_not_lower c (by omega), isUpperA_iff]
    exact hu
  · have := upChar_toNat_of_lower c hl
    rw [isUpperA_iff]
    omega

theorem isUpperA_upChar_res (c : Char) (h : isAlphaA (upChar c) = true) :
    isUpperA (upChar c) = true := by
  by_cases hl : 97 ≤ c.toNat ∧ c.toNat ≤ 122
  · have := upChar_toNat_of_lower c hl
    rw [isUpperA_iff]
    omega
  · rw [upChar_of_not_lower c hl] at h ⊢
    rcases (isAlphaA_iff c).mp h with hu | hll
    · rw [isUpperA_iff]; exact hu
    · exact absurd hll hl

theorem upChar_idem (c : Char) : upChar (upChar c) = upChar c := by
  by_cases h : 97 ≤ c.toNat ∧ c.toNat ≤ 122
  · have ht := upChar_toNat_of_lower c h
    exact upChar_of_not_lower _ (by omega)
  · rw [upChar_of_not_lower c h, upChar_of_not_lower c h]

theorem map_upChar_idem (l : List Char) : (l.map upChar).map upChar = l.map upChar := by
  rw [List.map_map]
  exact List.map_congr_left (fun c _ => upChar_idem c)

/-! ## Helper lemmas: stripping and affixes -/

theorem stripL_sublist (l : List Char) : List.Sublist (stripL l) l := by
  have h1 : List.Sublist ((l.dropWhile isSpaceA).reverse.dropWhile isSpaceA)
      (l.dropWhile isSpaceA).reverse := List.dropWhile_sublist _
  have h2 : List.Sublist (stripL l) (l.dropWhile isSpaceA) := by
    have := h1.reverse
    simpa [stripL] using this
  exact h2.trans (List.dropWhile_sublist _)

theorem mem_of_mem_stripL {c : Char} {l : List Char} (h : c ∈ stripL l) : c ∈ l :=
  (stripL_sublist l).subset h

theorem stripL_isPre (l : List Char) : stripL l <+: l.dropWhile isSpaceA := by
  have h1 : (l.dropWhile isSpaceA).reverse.dropWhile isSpaceA <:+ (l.dropWhile isSpaceA).reverse :=
    List.dropWhile_suffix _
  have h2 := List.reverse_prefix.mpr h1
  simpa [stripL] using h2

theorem dropWhile_stripL (l : List Char) : (stripL l).dropWhile isSpaceA = stripL l := by
  obtain ⟨w, hw⟩ := stripL_isPre l
  cases hs : stripL l with
  | nil => rfl
  | cons c t =>
    have hwc : l.dropWhile isSpaceA = c :: (t ++ w) := by rw [← hw, hs, List.cons_append]
    have hc := List.head?_dropWhile_not isSpaceA l
    rw [hwc] at hc
    simp only [List.head?_cons] at hc
    simp [List.dropWhile_cons, hc]

theorem dropWhile_reverse_stripL (l : List Char) :
    ((stripL l).reverse).dropWhile isSpaceA = (stripL l).reverse := by
  have h1 : (stripL l).reverse = (l.dropWhile isSpaceA).reverse.dropWhile isSpaceA := by
    simp [stripL]
  rw [h1]
  cases hs : (l.dropWhile isSpaceA).reverse.dropWhile isSpaceA with
  | nil => rfl
  | cons c t =>
    have hc := List.head?_dropWhile_not isSpaceA (l.dropWhile isSpaceA).reverse
    rw [hs] at hc
    simp only [List.head?_cons] at hc
    simp [List.dropWhile_cons, hc]

theorem stripL_idem (l : List Char) : stripL (stripL l) = stripL l := by
  calc stripL (stripL l)
      = (((stripL l).dropWhile isSpaceA).reverse.dropWhile isSpaceA).reverse := rfl
    _ = ((stripL l).reverse.dropWhile isSpaceA).reverse := by rw [dropWhile_stripL]
    _ = ((stripL l).reverse).reverse := by rw [dropWhile_reverse_stripL]
    _ = stripL l := List.reverse_reverse _

theorem stripL_map_upChar (l : List Char) :
    stripL (l.map upChar) = (stripL l).map upChar := by
  have hp : (isSpaceA ∘ upChar) = isSpaceA := by
    funext c
    simp [Function.comp, isSpaceA_upChar]
  unfold stripL
  rw [List.dropWhile_map, hp, ← List.map_reverse, List.dropWhile_map, hp, ← List.map_reverse]

theorem beginsWithL_nil (l : List Char) : beginsWithL l [] = true := by
  cases l <;> rfl

theorem beginsWithL_append_self (u w : List Char) : beginsWithL (u ++ w) u = true := by
  induction u with
  | nil => exact beginsWithL_nil w
  | cons c cs ih => simp [beginsWithL, ih]

theorem endsWithL_append (u d : List Char) : endsWithL (u ++ d) d = true := by
  unfold endsWithL
  rw [List.reverse_append]
  exact beginsWithL_append_self d.reverse u.reverse

theorem dropWhile_append_left_fixed {p : Char → Bool} {u : List Char} (d : List Char)
    (hu : u.dropWhile p = u) (hne : u ≠ []) : (u ++ d).dropWhile p = u ++ d := by
  cases u with
  | nil => exact absurd rfl hne
  | cons c t =>
    have hc : p c = false := by
      rw [List.dropWhile_cons] at hu
      split at hu
      · exfalso
        have h1 : (t.dropWhile p).length ≤ t.length := (List.dropWhile_sublist _).length_le
        have h2 := congrArg List.length hu
        simp at h2
        omega
      · simp_all
    simp [List.dropWhile_cons, hc]

theorem stripL_append_NS (Y : List Char) (hY : Y.dropWhile isSpaceA = Y) :
    stripL (Y ++ ".NS".data) = Y ++ ".NS".data := by
  have hfront : (Y ++ ".NS".data).dropWhile isSpaceA = Y ++ ".NS".data := by
    cases hY0 : Y with
    | nil => decide
    | cons c t =>
      rw [← hY0]
      exact dropWhile_append_left_fixed _ hY (by simp [hY0])
  have hback : ((Y ++ ".NS".data).reverse).dropWhile isSpaceA = (Y ++ ".NS".data).reverse := by
    rw [List.reverse_append]
    have hrev : (".NS".data.reverse) = ['S', 'N', '.'] := rfl
    rw [hrev, List.cons_append, List.dropWhile_cons]
    have hS : isSpaceA 'S' = false := by decide
    rw [hS]
    simp
  unfold stripL
  rw [hfront, hback, List.reverse_reverse]

/-! ## Helper lemmas: lists -/

theorem take_five_ne_nil {l : List String} (h : l ≠ []) : l.take 5 ≠ [] := by
  cases l <;> simp_all

theorem take_three_ne_nil {l : List String} (h : l ≠ []) : l.take 3 ≠ [] := by
  cases l <;> simp_all

theorem length_take_le_five (l : List String) : (l.take 5).length ≤ 5 := by
  simp [List.length_take]

theorem length_take_le_three (l : List String) : (l.take 3).length ≤ 3 := by
  simp [List.length_take]

/-! ## Claim C6 -/

/-- C6: the `roe` and `roce` fields of the compiled stock data are derived
from the externally supplied fundamentals by percentage scaling only:
`roe` is the provider's `returnOnEquity` times 100 when present and
non-zero and `None` otherwise, and `roce` is likewise the provider-supplied
figure (`returnOnAssets`) times 100 when present and non-zero and `None`
otherwise. -/
theorem C6_roe_roce_percentage_scaling (info : YfInfo) :
    ((∀ v : ℚ, info.returnOnEquity = some v → v ≠ 0 →
        (compileRatios info).roe = some (v * 100)) ∧
     (info.returnOnEquity = none ∨ info.returnOnEquity = some 0 →
        (compileRatios info).roe = none)) ∧
    ((∀ v : ℚ, info.returnOnAssets = some v → v ≠ 0 →
        (compileRatios info).roce = some (v * 100)) ∧
     (info.returnOnAssets = none ∨ info.returnOnAssets = some 0 →
        (compileRatios info).roce = none)) := by
  refine ⟨⟨?_, ?_⟩, ?_, ?_⟩
  · intro v hv hnz
    simp [compileRatios, calculateRoe, hv, hnz]
  · rintro (h | h) <;> simp [compileRatios, calculateRoe, h]
  · intro v hv hnz
    simp [compileRatios, calculateRoce, hv, hnz]
  · rintro (h | h) <;> simp [compileRatios, calculateRoce, h]

/-- Witness for C6 at a concrete `info`. -/
theorem C6_witness :
    (compileRatios ⟨some 2, some 3, none, none⟩).roe = some 200 ∧
    (compileRatios ⟨some 2, some 3, none, none⟩).roce = some 300 := by
  constructor
  · have h := (C6_roe_roce_percentage_scaling ⟨some 2, some 3, none, none⟩).1.1 2 rfl
      (by norm_num)
    rw [h]
    norm_num
  · have h := (C6_roe_roce_percentage_scaling ⟨some 2, some 3, none, none⟩).2.1 3 rfl
      (by norm_num)
    rw [h]
    norm_num

/-! ## Claim C10 -/

/-- C10: `_get_retail_holding` returns either `None` or a value that is
never negative: the computed retail percentage is clamped below at 0
before being returned. -/
theorem C10_retail_holding_nonneg (info : YfInfo) (x : ℚ)
    (h : getRetailHolding info = some x) :
    0 ≤ x ∧
    x = max 0 (100 - info.heldPercentInstitutions.getD 0 * 100
                   - info.heldPercentInsiders.getD 0 * 100) := by
  have hx : x = max 0 (100 - info.heldPercentInstitutions.getD 0 * 100
                           - info.heldPercentInsiders.getD 0 * 100) := by
    have := h.symm
    simpa [getRetailHolding] using this
  exact ⟨by rw [hx]; exact le_max_left _ _, hx⟩

/-- Witness for C10 at a concrete `info` (60% institutions, 50% insiders:
the raw retail number is negative and is clamped to 0). -/
theorem C10_witness :
    (0 : ℚ) ≤ 0 ∧
    (0 : ℚ) = max 0 (100 - (YfInfo.mk none none (some (3/5)) (some (1/2))).heldPercentInstitutions.getD 0 * 100
                         - (YfInfo.mk none none (some (3/5)) (some (1/2))).heldPercentInsiders.getD 0 * 100) :=
  C10_retail_holding_nonneg ⟨none, none, some (3/5), some (1/2)⟩ 0
    (by norm_num [getRetailHolding])

/-! ## Helper lemmas: well-formedness of the parser results -/

theorem parseAnalysis_insights_ne_nil (t : String) : (parseAnalysis t).insights ≠ [] := by
  by_cases h : (parseAccum t).ins = [] <;>
    simp only [parseAnalysis, h, if_pos, if_neg, ne_eq] <;> simp_all

theorem parseAnalysis_insights_length (t : String) : (parseAnalysis t).insights.length ≤ 5 := by
  by_cases h : (parseAccum t).ins = [] <;> simp only [parseAnalysis, h, if_pos, if_neg] <;>
    exact length_take_le_five _

theorem parseAnalysis_summary_ne_nil (t : String) :
    (parseAnalysis t).investmentSummary.data ≠ [] := by
  by_cases h : stripL (parseAccum t).sum = [] <;> simp only [parseAnalysis, h, if_pos, if_neg] <;>
    simp_all [summaryPlaceholder]

theorem parseAnalysis_summary_stripped (t : String) :
    stripL (parseAnalysis t).investmentSummary.data = (parseAnalysis t).investmentSummary.data := by
  by_cases h : stripL (parseAccum t).sum = [] <;> simp only [parseAnalysis, h, if_pos, if_neg]
  · decide
  · exact stripL_idem _

theorem basic_summary_eq (sd : StockData) :
    (generateBasicAnalysis sd).investmentSummary = basicSummary := rfl

theorem basic_insights_ne_nil (sd : StockData) : (generateBasicAnalysis sd).insights ≠ [] := by
  unfold generateBasicAnalysis
  simp only []
  split
  · decide
  · next h => exact take_five_ne_nil h

theorem basic_insights_length (sd : StockData) :
    (generateBasicAnalysis sd).insights.length ≤ 5 := by
  unfold generateBasicAnalysis
  simp only []
  split <;> exact length_take_le_five _

/-! ## Claim C3 -/

/-- C3: for every input text, `_parse_analysis` returns a non-empty
insights list of at most 5 entries and a non-empty trimmed
investment-summary string; when the text yields no insights or no summary,
the canned placeholder fills the corresponding field. -/
theorem C3_parse_analysis_wellformed (text : String) :
    (parseAnalysis text).insights ≠ [] ∧
    (parseAnalysis text).insights.length ≤ 5 ∧
    (parseAnalysis text).investmentSummary.data ≠ [] ∧
    stripL (parseAnalysis text).investmentSummary.data
      = (parseAnalysis text).investmentSummary.data ∧
    ((parseAccum text).ins = [] → (parseAnalysis text).insights = [insightsPlaceholder]) ∧
    (stripL (parseAccum text).sum = [] →
      (parseAnalysis text).investmentSummary = summaryPlaceholder) := by
  refine ⟨parseAnalysis_insights_ne_nil text, parseAnalysis_insights_length text,
    parseAnalysis_summary_ne_nil text, parseAnalysis_summary_stripped text, ?_, ?_⟩
  · intro h
    simp [parseAnalysis, h]
  · intro h
    simp [parseAnalysis, h]

/-- Witness for C3 at the empty text, which yields neither insights nor
summary text, so both placeholders appear. -/
theorem C3_witness :
    (parseAnalysis "").insights = [insightsPlaceholder] ∧
    (parseAnalysis "").investmentSummary = summaryPlaceholder :=
  ⟨(C3_parse_analysis_wellformed "").2.2.2.2.1 rfl,
   (C3_parse_analysis_wellformed "").2.2.2.2.2 rfl⟩

/-! ## Claim C1 -/

theorem analyzeStock_parse_or_basic (env : AIEnv) (sd : StockData) :
    (∃ t, analyzeStock env sd = parseAnalysis t) ∨
    analyzeStock env sd = generateBasicAnalysis sd := by
  unfold analyzeStock analyzeStockTraced
  by_cases h1 : env.togetherKey = "" <;> cases h2 : env.together <;>
    by_cases h3 : env.groqKey = "" <;> cases h4 : env.groq <;>
      simp only [h1, h2, h3, h4, ne_eq, not_true_eq_false, not_false_eq_true, if_true, if_false,
        ite_not] <;>
    first
      | (right; rfl)
      | (left; exact ⟨_, rfl⟩)
      | skip
  all_goals (
    repeat' split <;>
      first
        | (right; rfl)
        | (left; exact ⟨_, rfl⟩)
        | skip)
  all_goals
    first
      | exact Or.inr trivial
      | (rename_i a r tr heq
         split at heq
         · simp_all
         · rw [Prod.mk.injEq] at heq
           exact Or.inl ⟨_, (Option.some.inj heq.1).symm⟩)

/-- C1: for every stock-data record and every provider environment,
`analyze_stock` returns a well-formed result — a non-empty insights list of
at most 5 entries and a non-empty summary string — and any provider failure
is absorbed: the result is always either a parsed provider response or the
basic analysis of the given stock data. -/
theorem C1_analyze_stock_wellformed_total (env : AIEnv) (sd : StockData) :
    ((∃ t, analyzeStock env sd = parseAnalysis t) ∨
      analyzeStock env sd = generateBasicAnalysis sd) ∧
    (analyzeStock env sd).insights ≠ [] ∧
    (analyzeStock env sd).insights.length ≤ 5 ∧
    (analyzeStock env sd).investmentSummary.data ≠ [] := by
  refine ⟨analyzeStock_parse_or_basic env sd, ?_, ?_, ?_⟩ <;>
    rcases analyzeStock_parse_or_basic env sd with ⟨t, ht⟩ | h
  · rw [ht]; exact parseAnalysis_insights_ne_nil t
  · rw [h]; exact basic_insights_ne_nil sd
  · rw [ht]; exact parseAnalysis_insights_length t
  · rw [h]; exact basic_insights_length sd
  · rw [ht]; exact parseAnalysis_summary_ne_nil t
  · rw [h, basic_summary_eq]
    decide

/-! ## Claim C7 -/

/-- C7: with both API keys empty, `analyze_stock` performs no provider call
(the invocation trace is empty) and returns exactly the static canned
analysis of `_generate_basic_analysis`: fixed summary string,
deterministic data-driven insights capped at 5, and the fixed default
insights when no data-driven insight applies. -/
theorem C7_no_keys_basic_analysis (env : AIEnv) (sd : StockData)
    (h1 : env.togetherKey = "") (h2 : env.groqKey = "") :
    analyzeStockTraced env sd = (generateBasicAnalysis sd, []) ∧
    (generateBasicAnalysis sd).investmentSummary = basicSummary ∧
    (generateBasicAnalysis sd).insights ≠ [] ∧
    (generateBasicAnalysis sd).insights.length ≤ 5 ∧
    (generateBasicAnalysis (StockData.mk none none none none none)).insights = defaultInsights := by
  refine ⟨?_, basic_summary_eq sd, basic_insights_ne_nil sd, basic_insights_length sd, by decide⟩
  unfold analyzeStockTraced
  simp [h1, h2]

/-- Witness for C7: the all-empty environment with an all-`None` stock
record. -/
theorem C7_witness :
    analyzeStockTraced (AIEnv.mk "" "" ProvResult.fail ProvResult.fail)
        (StockData.mk none none none none none)
      = (generateBasicAnalysis (StockData.mk none none none none none), []) ∧
    (generateBasicAnalysis (StockData.mk none none none none none)).insights = defaultInsights := by
  have h := C7_no_keys_basic_analysis (AIEnv.mk "" "" ProvResult.fail ProvResult.fail)
    (StockData.mk none none none none none) rfl rfl
  exact ⟨h.1, h.2.2.2.2⟩

/-! ## Claim C9 -/

theorem gParseLine_rcmd (st : GState) (raw : List Char)
    (h : st.rcmd = "Buy" ∨ st.rcmd = "Hold" ∨ st.rcmd = "Sell") :
    (gParseLine st raw).rcmd = "Buy" ∨ (gParseLine st raw).rcmd = "Hold" ∨
      (gParseLine st raw).rcmd = "Sell" := by
  unfold gParseLine
  lift_lets
  intro l clean
  (repeat' split) <;>
    first
      | exact h
      | exact Or.inl rfl
      | exact Or.inr (Or.inl rfl)
      | exact Or.inr (Or.inr rfl)

theorem foldl_gParseLine_rcmd (lines : List (List Char)) (st : GState)
    (h : st.rcmd = "Buy" ∨ st.rcmd = "Hold" ∨ st.rcmd = "Sell") :
    (lines.foldl gParseLine st).rcmd = "Buy" ∨ (lines.foldl gParseLine st).rcmd = "Hold" ∨
      (lines.foldl gParseLine st).rcmd = "Sell" := by
  induction lines generalizing st with
  | nil => exact h
  | cons l ls ih => exact ih _ (gParseLine_rcmd st l h)

theorem gemini_ins_shape (ins : List String) :
    (if ins = [] then ["Analysis completed successfully"] else ins.take 5) ≠ [] ∧
    (if ins = [] then ["Analysis completed successfully"] else ins.take 5).length ≤ 5 := by
  split
  · exact ⟨by simp, by simp⟩
  · next h => exact ⟨take_five_ne_nil h, length_take_le_five _⟩

theorem gemini_rks_shape (rks : List String) :
    (if rks = [] then ["Market volatility risk"] else rks.take 3) ≠ [] ∧
    (if rks = [] then ["Market volatility risk"] else rks.take 3).length ≤ 3 := by
  split
  · exact ⟨by simp, by simp⟩
  · next h => exact ⟨take_three_ne_nil h, length_take_le_three _⟩

theorem parseGemini_rcmd_eq (t : String) :
    (parseGeminiResponse t).recommendation
      = ((splitLines (stripL t.data)).foldl gParseLine ⟨none, [], "Hold", []⟩).rcmd := rfl

theorem parseGemini_insights_shape (t : String) :
    ∃ ins, (parseGeminiResponse t).insights
      = (if ins = [] then ["Analysis completed successfully"] else ins.take 5) := ⟨_, rfl⟩

theorem parseGemini_risks_shape (t : String) :
    ∃ rks, (parseGeminiResponse t).risks
      = (if rks = [] then ["Market volatility risk"] else rks.take 3) := ⟨_, rfl⟩

/-- C9: `generate_stock_insights` never propagates a failure and always
returns a recommendation that is exactly one of `"Buy"`, `"Hold"`,
`"Sell"`, a non-empty insights list of at most 5 entries, and a non-empty
risks list of at most 3 entries. -/
theorem C9_gemini_insights_wellformed (outcome : GemOutcome) :
    ((generateStockInsights outcome).recommendation = "Buy" ∨
     (generateStockInsights outcome).recommendation = "Hold" ∨
     (generateStockInsights outcome).recommendation = "Sell") ∧
    (generateStockInsights outcome).insights ≠ [] ∧
    (generateStockInsights outcome).insights.length ≤ 5 ∧
    (generateStockInsights outcome).risks ≠ [] ∧
    (generateStockInsights outcome).risks.length ≤ 3 := by
  have hparse : ∀ t : String,
      ((parseGeminiResponse t).recommendation = "Buy" ∨
       (parseGeminiResponse t).recommendation = "Hold" ∨
       (parseGeminiResponse t).recommendation = "Sell") ∧
      (parseGeminiResponse t).insights ≠ [] ∧
      (parseGeminiResponse t).insights.length ≤ 5 ∧
      (parseGeminiResponse t).risks ≠ [] ∧
      (parseGeminiResponse t).risks.length ≤ 3 := by
    intro t
    obtain ⟨ins, hins⟩ := parseGemini_insights_shape t
    obtain ⟨rks, hrks⟩ := parseGemini_risks_shape t
    refine ⟨?_, ?_, ?_, ?_, ?_⟩
    · rw [parseGemini_rcmd_eq]
      exact foldl_gParseLine_rcmd _ _ (Or.inr (Or.inl rfl))
    · rw [hins]; exact (gemini_ins_shape ins).1
    · rw [hins]; exact (gemini_ins_shape ins).2
    · rw [hrks]; exact (gemini_rks_shape rks).1
    · rw [hrks]; exact (gemini_rks_shape rks).2
  cases outcome with
  | fail => exact ⟨Or.inr (Or.inl rfl), by decide, by decide, by decide, by decide⟩
  | ok t =>
    by_cases ht : t = ""
    · simp only [generateStockInsights, ht]
      exact ⟨Or.inr (Or.inl rfl), by decide, by decide, by decide, by decide⟩
    · simpa only [generateStockInsights, ht, ne_eq, not_false_eq_true, if_true] using hparse t

/-! ## Claim C4 -/

theorem parseLine_eq_applyClass (st : PState) (raw : List Char) :
    parseLine st raw = applyClass st (stripL raw) := by
  by_cases h1 : hasSub ((stripL raw).map upChar) ("INSIGHTS:".data) = true <;>
  by_cases h2 : hasSub ((stripL raw).map upChar) ("INVESTMENT_SUMMARY:".data) = true <;>
  by_cases h3 : (beginsWithL (stripL raw) ['•'] || beginsWithL (stripL raw) ['-'] ||
      beginsWithL (stripL raw) ['*']) = true <;>
    simp [parseLine, applyClass, classifyLine, h1, h2, h3]

/-- C4, counterexample: the classification is not prefix-based.  On the
text `"x INSIGHTS:\n- A"` the first stripped line does not begin with
`INSIGHTS:` yet the code treats it as a section header (it contains the
keyword), so the code's parse differs from the prefix-matching parse the
claim describes. -/
theorem C4_counterexample :
    parseAnalysis "x INSIGHTS:\n- A" ≠ parseAnalysisSpec "x INSIGHTS:\n- A" := by
  decide

/-- C4, amended: `_parse_analysis` classifies each stripped line into
exactly one of {insights-header, summary-header, bulleted-insight, plain}:
a header when the uppercased line *contains* `INSIGHTS:` (or otherwise
`INVESTMENT_SUMMARY:`), the containment tests taking precedence over the
bullet test; a bulleted insight when it begins with `•`, `-` or `*`; and
any other non-empty line inside the summary section is prose
continuation.  The parser is exactly the fold of the action function
determined by that classification. -/
theorem C4_amended_classification (text : String) :
    parseAnalysis text = parseAnalysisClassified text := by
  have hfold : ∀ (L : List (List Char)) (st : PState),
      L.foldl parseLine st = L.foldl (fun st raw => applyClass st (stripL raw)) st := by
    intro L
    induction L with
    | nil => intro st; rfl
    | cons x xs ih =>
      intro st
      simp only [List.foldl_cons, parseLine_eq_applyClass, ih]
  unfold parseAnalysis parseAnalysisClassified parseAccum
  rw [hfold]


/-! ## Claim C5 -/

theorem getIndianSymbol_eq (s : String) :
    getIndianSymbol s =
      (if (endsWithL (stripL (s.data.map upChar)) (".NS".data) ||
           endsWithL (stripL (s.data.map upChar)) (".BO".data)) = true
       then String.mk (stripL (s.data.map upChar))
       else
         match lookupSym indianSymbols (String.mk (stripL (s.data.map upChar))) with
         | some v => v
         | none => String.mk (stripL (s.data.map upChar) ++ ".NS".data)) := rfl

theorem lookupSym_forall (P : String → Prop) (t : List (String × String))
    (hall : ∀ p ∈ t, P p.2) (k v : String) (h : lookupSym t k = some v) : P v := by
  induction t with
  | nil => simp [lookupSym] at h
  | cons hd tl ih =>
    rw [lookupSym] at h
    split at h
    · cases h
      exact hall hd (by simp)
    · exact ih (fun p hp => hall p (by simp_all)) h

theorem indianSymbols_value_facts :
    ∀ p ∈ indianSymbols, endsWithL p.2.data (".NS".data) = true ∧
      stripL p.2.data = p.2.data ∧ p.2.data.map upChar = p.2.data := by
  decide

theorem norm_map_upChar (s : String) :
    (stripL (s.data.map upChar)).map upChar = stripL (s.data.map upChar) := by
  rw [stripL_map_upChar, map_upChar_idem]

/-- C5: `get_indian_symbol` always returns a symbol carrying one of the two
exchange suffixes `.NS` or `.BO`; it is idempotent; and an input that,
after uppercasing and stripping, already ends in `.NS` or `.BO` is
returned as that uppercased-and-stripped form unchanged. -/
theorem C5_get_indian_symbol_suffix_idem (s : String) :
    (endsWithL (getIndianSymbol s).data (".NS".data) = true ∨
     endsWithL (getIndianSymbol s).data (".BO".data) = true) ∧
    getIndianSymbol (getIndianSymbol s) = getIndianSymbol s ∧
    ((endsWithL (stripL (s.data.map upChar)) (".NS".data) = true ∨
      endsWithL (stripL (s.data.map upChar)) (".BO".data) = true) →
      getIndianSymbol s = String.mk (stripL (s.data.map upChar))) := by
  have hidem : ∀ u : String,
      (endsWithL u.data (".NS".data) = true ∨ endsWithL u.data (".BO".data) = true) →
      stripL (u.data.map upChar) = u.data → getIndianSymbol u = u := by
    intro u hend hfix
    rw [getIndianSymbol_eq u, hfix, if_pos ((Bool.or_eq_true _ _).mpr hend)]
  by_cases hend : (endsWithL (stripL (s.data.map upChar)) (".NS".data) ||
      endsWithL (stripL (s.data.map upChar)) (".BO".data)) = true
  · have hres : getIndianSymbol s = String.mk (stripL (s.data.map upChar)) := by
      rw [getIndianSymbol_eq s, if_pos hend]
    have hdata : (getIndianSymbol s).data = stripL (s.data.map upChar) := by rw [hres]
    have hend2 := (Bool.or_eq_true _ _).mp hend
    refine ⟨by rw [hdata]; exact hend2, ?_, fun _ => hres⟩
    rw [hres]
    apply hidem
    · exact hend2
    · show stripL ((stripL (s.data.map upChar)).map upChar) = stripL (s.data.map upChar)
      rw [norm_map_upChar s, stripL_idem]
  · have hend3 : ¬ (endsWithL (stripL (s.data.map upChar)) (".NS".data) = true ∨
        endsWithL (stripL (s.data.map upChar)) (".BO".data) = true) := by
      intro hc
      exact hend ((Bool.or_eq_true _ _).mpr hc)
    cases hlook : lookupSym indianSymbols (String.mk (stripL (s.data.map upChar))) with
    | some v =>
      have hres : getIndianSymbol s = v := by
        rw [getIndianSymbol_eq s, if_neg hend, hlook]
      have hv := lookupSym_forall
        (fun w => endsWithL w.data (".NS".data) = true ∧
          stripL w.data = w.data ∧ w.data.map upChar = w.data)
        indianSymbols indianSymbols_value_facts _ v hlook
      refine ⟨by rw [hres]; exact Or.inl hv.1, ?_, fun hc => absurd hc hend3⟩
      rw [hres]
      apply hidem
      · exact Or.inl hv.1
      · rw [hv.2.2, hv.2.1]
    | none =>
      have hres : getIndianSymbol s = String.mk (stripL (s.data.map upChar) ++ ".NS".data) := by
        rw [getIndianSymbol_eq s, if_neg hend, hlook]
      have hdata : (getIndianSymbol s).data = stripL (s.data.map upChar) ++ ".NS".data := by
        rw [hres]
      refine ⟨by rw [hdata]; exact Or.inl (endsWithL_append _ _), ?_, fun hc => absurd hc hend3⟩
      rw [hres]
      apply hidem
      · exact Or.inl (endsWithL_append _ _)
      · show stripL ((stripL (s.data.map upChar) ++ ".NS".data).map upChar)
            = stripL (s.data.map upChar) ++ ".NS".data
        rw [List.map_append, norm_map_upChar s]
        have hNS : (".NS".data).map upChar = ".NS".data := by decide
        rw [hNS]
        exact stripL_append_NS _ (dropWhile_stripL _)

/-- Witness for C5: a concrete input exercising the already-suffixed
branch. -/
theorem C5_witness : getIndianSymbol " tcs.ns " = String.mk (stripL (" tcs.ns ".data.map upChar)) :=
  (C5_get_indian_symbol_suffix_idem " tcs.ns ").2.2 (Or.inl (by decide))

/-! ## Claim C2 -/

/-- C2: the provider chain is fixed-order, first-success-wins, no retry:
Together AI is attempted first and each provider is invoked at most once
(the trace is one of the four ordered prefixless lists); when the Together
call returns non-empty text its parsed result is returned and Groq is
never invoked; and Groq is invoked only when its key is set and Together
was skipped (no key), failed, or returned empty text. -/
theorem C2_provider_fallback_chain (env : AIEnv) (sd : StockData) :
    (∀ t : String, env.togetherKey ≠ "" → env.together = ProvResult.ok t → t ≠ "" →
      analyzeStockTraced env sd = (parseAnalysis t, [Provider.together])) ∧
    ((analyzeStockTraced env sd).2 = [] ∨
     (analyzeStockTraced env sd).2 = [Provider.together] ∨
     (analyzeStockTraced env sd).2 = [Provider.groq] ∨
     (analyzeStockTraced env sd).2 = [Provider.together, Provider.groq]) ∧
    (Provider.groq ∈ (analyzeStockTraced env sd).2 →
      env.groqKey ≠ "" ∧ (env.togetherKey = "" ∨ env.together = ProvResult.fail ∨
        env.together = ProvResult.ok "")) := by
  refine ⟨?_, ?_, ?_⟩
  · intro t h1 h2 h3
    unfold analyzeStockTraced
    simp [h1, h2, h3]
  · unfold analyzeStockTraced
    by_cases h1 : env.togetherKey = "" <;> cases h2 : env.together <;>
      by_cases h3 : env.groqKey = "" <;> cases h4 : env.groq <;>
        simp only [h1, h2, h3, h4, ne_eq, not_true_eq_false, not_false_eq_true, if_true,
          if_false, ite_not] <;>
      (repeat' split) <;> (try split_ifs at *) <;> (try simp_all) <;> (try subst_vars) <;>
        (try simp_all) <;> (try aesop)
  · unfold analyzeStockTraced
    by_cases h1 : env.togetherKey = "" <;> cases h2 : env.together <;>
      by_cases h3 : env.groqKey = "" <;> cases h4 : env.groq <;>
        simp only [h1, h2, h3, h4, ne_eq, not_true_eq_false, not_false_eq_true, if_true,
          if_false, ite_not] <;>
      (repeat' split) <;> (try split_ifs at *) <;> (try simp_all) <;> (try subst_vars) <;>
        (try simp_all) <;> (try aesop)

/-- Witness for C2: with both keys set and Together returning non-empty
text, the result is the parsed Together response and only Together was
invoked. -/
theorem C2_witness :
    analyzeStockTraced (AIEnv.mk "k" "g" (ProvResult.ok "hello") ProvResult.fail)
        (StockData.mk none none none none none)
      = (parseAnalysis "hello", [Provider.together]) :=
  (C2_provider_fallback_chain (AIEnv.mk "k" "g" (ProvResult.ok "hello") ProvResult.fail)
    (StockData.mk none none none none none)).1 "hello" (by decide) rfl (by decide)

/-! ## Claim C8 -/

theorem symCheck_eq (g : List Char) :
    symCheck g =
      (if 2 ≤ (stripL (g.map upChar)).length ∧ ¬ (stripL (g.map upChar)).isEmpty ∧
          (stripL (g.map upChar)).all isAlphaA
       then some (String.mk (stripL (g.map upChar))) else none) := rfl

theorem symCheck_some {g : List Char} {t : String} (h : symCheck g = some t) :
    t.data ≠ [] ∧ t.data.all isUpperA = true := by
  rw [symCheck_eq] at h
  split at h
  · next hguard =>
    cases h
    refine ⟨?_, ?_⟩
    · have h2 := hguard.2.1
      simpa [List.isEmpty_iff] using h2
    · rw [List.all_eq_true]
      intro c hc
      have hal : isAlphaA c = true := by
        have h3 := hguard.2.2
        rw [List.all_eq_true] at h3
        exact h3 c hc
      have hmem : c ∈ g.map upChar := mem_of_mem_stripL hc
      obtain ⟨x, hx, rfl⟩ := List.mem_map.mp hmem
      exact isUpperA_upChar_res x hal
  · simp at h

theorem firstValid_some :
    ∀ (opts : List (Option (List Char))) (t : String),
      firstValid opts = some t → ∃ g, symCheck g = some t := by
  intro opts
  induction opts with
  | nil => intro t h; simp [firstValid] at h
  | cons o rest ih =>
    intro t h
    cases o with
    | none => exact ih t h
    | some g =>
      rw [firstValid] at h
      cases hsc : symCheck g with
      | some s =>
        rw [hsc] at h
        cases h
        exact ⟨g, hsc⟩
      | none =>
        rw [hsc] at h
        exact ih t h

theorem validateStockSymbol_eq (s : String) :
    validateStockSymbol s =
      (if s = "" then none
       else
         match firstValid (patResults (stripL s.data)) with
         | some t => some t
         | none =>
           if ¬ ((stripL s.data).filter (fun c => c ≠ ' ')).isEmpty ∧
               ((stripL s.data).filter (fun c => c ≠ ' ')).all isAlphaA ∧
               ((stripL s.data).filter (fun c => c ≠ ' ')).length ≤ 10
           then some (String.mk (((stripL s.data).filter (fun c => c ≠ ' ')).map upChar))
           else none) := rfl

/-- C8: `validate_stock_symbol` returns either `None` or a non-empty
all-uppercase alphabetic string; any input that is alphabetic after
stripping and removing spaces and at most 10 characters long is accepted;
and in particular the whole-input fallback accepts the single-letter
input `"a"`, returning `"A"`, even though the pattern paths require
length at least 2. -/
theorem C8_validate_symbol_shape :
    (∀ s : String, validateStockSymbol s = none ∨
       ∃ t, validateStockSymbol s = some t ∧ t.data ≠ [] ∧ t.data.all isUpperA = true) ∧
    (∀ s : String,
       ((stripL s.data).filter (fun c => c ≠ ' ')) ≠ [] →
       ((stripL s.data).filter (fun c => c ≠ ' ')).all isAlphaA = true →
       ((stripL s.data).filter (fun c => c ≠ ' ')).length ≤ 10 →
       (validateStockSymbol s).isSome = true) ∧
    validateStockSymbol "a" = some "A" := by
  refine ⟨?_, ?_, by decide⟩
  · intro s
    rw [validateStockSymbol_eq s]
    by_cases hs : s = ""
    · rw [if_pos hs]
      exact Or.inl rfl
    · rw [if_neg hs]
      cases hfv : firstValid (patResults (stripL s.data)) with
      | some t =>
        obtain ⟨g, hg⟩ := firstValid_some _ t hfv
        exact Or.inr ⟨t, rfl, symCheck_some hg⟩
      | none =>
        by_cases hguard : ¬ ((stripL s.data).filter (fun c => c ≠ ' ')).isEmpty ∧
            ((stripL s.data).filter (fun c => c ≠ ' ')).all isAlphaA ∧
            ((stripL s.data).filter (fun c => c ≠ ' ')).length ≤ 10
        · rw [if_pos hguard]
          refine Or.inr ⟨_, rfl, ?_, ?_⟩
          · have h1 := hguard.1
            intro hc
            rw [List.isEmpty_iff] at h1
            exact h1 (by simpa using hc)
          · rw [List.all_eq_true]
            intro c hc
            have hc2 : c ∈ ((stripL s.data).filter (fun c => c ≠ ' ')).map upChar := hc
            obtain ⟨x, hx, rfl⟩ := List.mem_map.mp hc2
            have h2 := hguard.2.1
            rw [List.all_eq_true] at h2
            exact isUpperA_upChar_arg x (h2 x hx)
        · rw [if_neg hguard]
          exact Or.inl rfl
  · intro s h1 h2 h3
    rw [validateStockSymbol_eq s]
    have hs : ¬ s = "" := by
      intro he
      subst he
      exact h1 rfl
    rw [if_neg hs]
    cases hfv : firstValid (patResults (stripL s.data)) with
    | some t => simp
    | none =>
      rw [if_pos ⟨by simpa [List.isEmpty_iff] using h1, h2, h3⟩]
      simp

/-- Witness for C8: the spaced alphabetic input `"ab cd"` matches no
pattern and is accepted by the whole-input fallback. -/
theorem C8_witness : (validateStockSymbol "ab cd").isSome = true :=
  C8_validate_symbol_shape.2.1 "ab cd" (by decide) (by decide) (by decide)
